import Mathlib

/- Shallow embedding of src/main.py: three circular-buffer classes
(BufferDynamic, BufferFixed, BufferFixedOverwrite with its nested helper
class Iterator).  Python lists whose slots hold either an item or None
become `List (Option α)`; the `size` counter (a Python int that is
incremented and decremented) becomes `Int`; the index fields `head`,
`tail`, `in_index`, `out_index` become `Nat` (they start at 0 and are only
ever reassigned non-negative values `(i + 1) % max_size`, `i + 1` or `0`,
so Nat arithmetic coincides with Python's).  Methods that can `raise`
return `Except String`, carrying the exact Python exception message;
methods without a `raise` statement are total functions returning the new
state.  Python reads `buffer[i]` are modelled with `List.getD i none` and
writes `buffer[i] = v` with `List.set i v`; the invariant proofs below show
the indices stay in range on reachable states, where the two semantics
agree with Python's. -/

namespace Main

variable {α : Type}

/-- A single buffer operation: enqueue an item, or dequeue. -/
inductive Op (α : Type) where
  | enq (item : α)
  | deq
deriving DecidableEq

/-- Whether an operation is an enqueue. -/
def Op.isEnq : Op α → Bool
  | .enq _ => true
  | .deq => false

/-- State of the Python class `BufferDynamic` (src/main.py lines 1-50):
fields `__buffer`, `__max_size`, `__head`, `__tail`, `__size`. -/
structure BufferDynamic (α : Type) where
  buffer : List (Option α)
  max_size : Nat
  head : Nat
  tail : Nat
  size : Int
deriving DecidableEq

/-- `BufferDynamic.__init__`: empty backing list, all counters 0. -/
def BufferDynamic.init (max_size : Nat) : BufferDynamic α :=
  { buffer := [], max_size := max_size, head := 0, tail := 0, size := 0 }

/-- `BufferDynamic.is_empty`: `self.__size == 0`. -/
def BufferDynamic.is_empty (b : BufferDynamic α) : Bool :=
  b.size == 0

/-- `BufferDynamic.is_full`: `self.__size == self.__max_size`. -/
def BufferDynamic.is_full (b : BufferDynamic α) : Bool :=
  b.size == (b.max_size : Int)

/-- `BufferDynamic.enqueue`: raise "Buffer is full" when full; append while
the backing list is still shorter than `max_size`, otherwise write in place
at `tail`; advance `tail` modulo `max_size`; increment `size`. -/
def BufferDynamic.enqueue (b : BufferDynamic α) (item : α) :
    Except String (BufferDynamic α) :=
  if b.is_full then .error "Buffer is full"
  else
    let buf := if b.buffer.length < b.max_size then b.buffer ++ [some item]
               else b.buffer.set b.tail (some item)
    .ok { b with buffer := buf, tail := (b.tail + 1) % b.max_size,
                 size := b.size + 1 }

/-- `BufferDynamic.dequeue`: raise "Buffer is empty" when empty; read slot
`head`, clear it to None, advance `head` modulo `max_size`, decrement
`size`, return the item read. -/
def BufferDynamic.dequeue (b : BufferDynamic α) :
    Except String (Option α × BufferDynamic α) :=
  if b.is_empty then .error "Buffer is empty"
  else
    let item := b.buffer.getD b.head none
    .ok (item, { b with buffer := b.buffer.set b.head none,
                        head := (b.head + 1) % b.max_size,
                        size := b.size - 1 })

/-- `BufferDynamic.get_buffer`: returns the backing list; the method body
contains no assignment, so the state is returned unchanged. -/
def BufferDynamic.get_buffer (b : BufferDynamic α) :
    List (Option α) × BufferDynamic α :=
  (b.buffer, b)

/-- Run one operation against a `BufferDynamic`.  A Python exception
propagates to the caller and the object is left as it was when the method
raised, so the error branch keeps the pre-call state. -/
def BufferDynamic.step (b : BufferDynamic α) : Op α → BufferDynamic α
  | .enq item =>
    match b.enqueue item with
    | .ok b2 => b2
    | .error _ => b
  | .deq =>
    match b.dequeue with
    | .ok p => p.2
    | .error _ => b

/-- Run a list of operations in order against a `BufferDynamic`. -/
def BufferDynamic.run (b : BufferDynamic α) : List (Op α) → BufferDynamic α
  | [] => b
  | op :: ops => BufferDynamic.run (b.step op) ops

/-- Enqueue a whole list of items in order, stopping at the first raise. -/
def BufferDynamic.enqueueAll (b : BufferDynamic α) :
    List α → Except String (BufferDynamic α)
  | [] => .ok b
  | x :: xs =>
    match b.enqueue x with
    | .ok b2 => b2.enqueueAll xs
    | .error e => .error e

/-- Dequeue `n` times, collecting the returned items, stopping at the first
raise. -/
def BufferDynamic.dequeueN (b : BufferDynamic α) :
    Nat → Except String (List (Option α) × BufferDynamic α)
  | 0 => .ok ([], b)
  | n + 1 =>
    match b.dequeue with
    | .ok (x, b2) =>
      match b2.dequeueN n with
      | .ok (xs, b3) => .ok (x :: xs, b3)
      | .error e => .error e
    | .error e => .error e

/-- State of the Python class `BufferFixed` (src/main.py lines 53-101). -/
structure BufferFixed (α : Type) where
  buffer : List (Option α)
  max_size : Nat
  head : Nat
  tail : Nat
  size : Int
deriving DecidableEq

/-- `BufferFixed.__init__`: backing list pre-filled with `max_size` Nones. -/
def BufferFixed.init (max_size : Nat) : BufferFixed α :=
  { buffer := List.replicate max_size none, max_size := max_size,
    head := 0, tail := 0, size := 0 }

/-- `BufferFixed.is_empty`: `self.__size == 0`. -/
def BufferFixed.is_empty (b : BufferFixed α) : Bool :=
  b.size == 0

/-- `BufferFixed.is_full`: `self.__size == self.__max_size`. -/
def BufferFixed.is_full (b : BufferFixed α) : Bool :=
  b.size == (b.max_size : Int)

/-- `BufferFixed.enqueue`: raise "Buffer is full" when full; otherwise write
slot `tail`, advance `tail` modulo `max_size`, increment `size`. -/
def BufferFixed.enqueue (b : BufferFixed α) (item : α) :
    Except String (BufferFixed α) :=
  if b.is_full then .error "Buffer is full"
  else
    .ok { b with buffer := b.buffer.set b.tail (some item),
                 tail := (b.tail + 1) % b.max_size, size := b.size + 1 }

/-- `BufferFixed.dequeue`: raise "Buffer is empty" when empty; read slot
`head`, clear it, advance `head` modulo `max_size`, decrement `size`. -/
def BufferFixed.dequeue (b : BufferFixed α) :
    Except String (Option α × BufferFixed α) :=
  if b.is_empty then .error "Buffer is empty"
  else
    let item := b.buffer.getD b.head none
    .ok (item, { b with buffer := b.buffer.set b.head none,
                        head := (b.head + 1) % b.max_size,
                        size := b.size - 1 })

/-- `BufferFixed.get_buffer`: returns the backing list, state unchanged. -/
def BufferFixed.get_buffer (b : BufferFixed α) :
    List (Option α) × BufferFixed α :=
  (b.buffer, b)

/-- Run one operation against a `BufferFixed`; a raise leaves the state as
it was at the raise, i.e. unchanged. -/
def BufferFixed.step (b : BufferFixed α) : Op α → BufferFixed α
  | .enq item =>
    match b.enqueue item with
    | .ok b2 => b2
    | .error _ => b
  | .deq =>
    match b.dequeue with
    | .ok p => p.2
    | .error _ => b

/-- Run a list of operations in order against a `BufferFixed`. -/
def BufferFixed.run (b : BufferFixed α) : List (Op α) → BufferFixed α
  | [] => b
  | op :: ops => BufferFixed.run (b.step op) ops

/-- Enqueue a whole list of items in order, stopping at the first raise. -/
def BufferFixed.enqueueAll (b : BufferFixed α) :
    List α → Except String (BufferFixed α)
  | [] => .ok b
  | x :: xs =>
    match b.enqueue x with
    | .ok b2 => b2.enqueueAll xs
    | .error e => .error e

/-- Dequeue `n` times, collecting the returned items, stopping at the first
raise. -/
def BufferFixed.dequeueN (b : BufferFixed α) :
    Nat → Except String (List (Option α) × BufferFixed α)
  | 0 => .ok ([], b)
  | n + 1 =>
    match b.dequeue with
    | .ok (x, b2) =>
      match b2.dequeueN n with
      | .ok (xs, b3) => .ok (x :: xs, b3)
      | .error e => .error e
    | .error e => .error e

/-- State of the nested Python class `BufferFixedOverwrite.Iterator`
(src/main.py lines 140-170): fields `max_index`, `__in_index`,
`__out_index`. -/
structure Iterator where
  max_index : Nat
  in_index : Nat
  out_index : Nat
deriving DecidableEq

/-- `Iterator.__init__(max_index)`: both cursors start at 0. -/
def Iterator.init (max_index : Nat) : Iterator :=
  { max_index := max_index, in_index := 0, out_index := 0 }

/-- `Iterator.get_out`: capture `out_index`, then advance it, wrapping from
`max_index` back to 0.  Returns the captured index and the new state. -/
def Iterator.get_out (it : Iterator) : Nat × Iterator :=
  (it.out_index,
   { it with out_index := if it.out_index == it.max_index then 0
                          else it.out_index + 1 })

/-- `Iterator.get_in`: capture `in_index`; if `in_index != 0` and
`in_index == out_index`, first call `get_out` (advancing the read cursor);
then advance `in_index`, wrapping from `max_index` back to 0.  Returns the
captured index and the new state. -/
def Iterator.get_in (it : Iterator) : Nat × Iterator :=
  let index := it.in_index
  let it1 := if it.in_index != 0 && it.in_index == it.out_index
             then (Iterator.get_out it).2 else it
  (index,
   { it1 with in_index := if it1.in_index == it1.max_index then 0
                          else it1.in_index + 1 })

/-- `Iterator.get_val`: the Python method formats `__in_index` and
`__out_index` into a string; we return the pair of indices, with the
(unmodified) iterator threaded through for frame reasoning. -/
def Iterator.get_val (it : Iterator) : (Nat × Nat) × Iterator :=
  ((it.in_index, it.out_index), it)

/-- State of the Python class `BufferFixedOverwrite`
(src/main.py lines 104-138). -/
structure BufferFixedOverwrite (α : Type) where
  buffer : List (Option α)
  iter : Iterator
  max_size : Nat
  size : Int
deriving DecidableEq

/-- `BufferFixedOverwrite.__init__`: backing list of `max_size` Nones and
an `Iterator(max_size - 1)`. -/
def BufferFixedOverwrite.init (max_size : Nat) : BufferFixedOverwrite α :=
  { buffer := List.replicate max_size none,
    iter := Iterator.init (max_size - 1), max_size := max_size, size := 0 }

/-- `BufferFixedOverwrite.is_full`: `self.__size == self.__max_size`. -/
def BufferFixedOverwrite.is_full (b : BufferFixedOverwrite α) : Bool :=
  b.size == (b.max_size : Int)

/-- `BufferFixedOverwrite.is_empty`: `self.__size == 0`. -/
def BufferFixedOverwrite.is_empty (b : BufferFixedOverwrite α) : Bool :=
  b.size == 0

/-- `BufferFixedOverwrite.enqueue`: write the item at the slot returned by
`Iterator.get_in` and increment `size`.  The method has no raise statement
and never checks fullness. -/
def BufferFixedOverwrite.enqueue (b : BufferFixedOverwrite α) (item : α) :
    BufferFixedOverwrite α :=
  let p := b.iter.get_in
  { b with buffer := b.buffer.set p.1 (some item), iter := p.2,
           size := b.size + 1 }

/-- `BufferFixedOverwrite.dequeue`: when not empty, read the slot returned
by `Iterator.get_out`, clear it, decrement `size`, return the element;
when empty, return None with the state untouched. -/
def BufferFixedOverwrite.dequeue (b : BufferFixedOverwrite α) :
    Option α × BufferFixedOverwrite α :=
  if !b.is_empty then
    let p := b.iter.get_out
    let element := b.buffer.getD p.1 none
    (element, { b with buffer := b.buffer.set p.1 none, iter := p.2,
                       size := b.size - 1 })
  else (none, b)

/-- `BufferFixedOverwrite.get_buffer`: the Python method formats the backing
list and `Iterator.get_val` into a string; we return the raw components, and
thread the state exactly as the method leaves it. -/
def BufferFixedOverwrite.get_buffer (b : BufferFixedOverwrite α) :
    (List (Option α) × (Nat × Nat)) × BufferFixedOverwrite α :=
  let p := b.iter.get_val
  ((b.buffer, p.1), { b with iter := p.2 })

/-- Run one operation against a `BufferFixedOverwrite` (no raise paths). -/
def BufferFixedOverwrite.step (b : BufferFixedOverwrite α) :
    Op α → BufferFixedOverwrite α
  | .enq item => b.enqueue item
  | .deq => (b.dequeue).2

/-- Run a list of operations in order against a `BufferFixedOverwrite`. -/
def BufferFixedOverwrite.run (b : BufferFixedOverwrite α) :
    List (Op α) → BufferFixedOverwrite α
  | [] => b
  | op :: ops => BufferFixedOverwrite.run (b.step op) ops

/-- Enqueue a whole list of items in order. -/
def BufferFixedOverwrite.enqueueAll (b : BufferFixedOverwrite α) :
    List α → BufferFixedOverwrite α
  | [] => b
  | x :: xs => BufferFixedOverwrite.enqueueAll (b.enqueue x) xs

/-- Dequeue `n` times, collecting the returned values. -/
def BufferFixedOverwrite.dequeueN (b : BufferFixedOverwrite α) :
    Nat → List (Option α) × BufferFixedOverwrite α
  | 0 => ([], b)
  | n + 1 =>
    let p := b.dequeue
    let q := p.2.dequeueN n
    (p.1 :: q.1, q.2)

/-- Well-formedness of a `BufferFixedOverwrite` state: the backing list
has exactly `max_size` slots, the cursor's `max_index` is `max_size - 1`,
and both cursor indices are within `[0, max_index]`.  It holds for every
freshly constructed buffer of positive capacity and is preserved by every
operation, and it is what makes the Python index expressions
`self.__buffer[...]` stay in bounds (so `enqueue` cannot raise). -/
def BufferFixedOverwrite.WFO (b : BufferFixedOverwrite α) : Prop :=
  b.buffer.length = b.max_size ∧ b.iter.max_index + 1 = b.max_size ∧
  b.iter.in_index ≤ b.iter.max_index ∧ b.iter.out_index ≤ b.iter.max_index

/-- Abstraction relation for `BufferFixed`: state `b` represents the FIFO
queue `q` (front of `q` = oldest item).  The backing list has exactly
`max_size` slots, `size` counts the queue, `head` is in range, `tail` sits
`q.length` slots (modulo `max_size`) past `head`, and slot
`(head + i) % max_size` holds the i-th queue element. -/
structure BufferFixed.WF (b : BufferFixed α) (q : List α) : Prop where
  pos : 0 < b.max_size
  len_eq : b.buffer.length = b.max_size
  size_eq : b.size = (q.length : Int)
  size_le : q.length ≤ b.max_size
  head_lt : b.head < b.max_size
  tail_eq : b.tail = (b.head + q.length) % b.max_size
  content : ∀ i, (hi : i < q.length) →
    b.buffer[(b.head + i) % b.max_size]? = some (some q[i])

/-- Abstraction relation for `BufferDynamic`: same as for `BufferFixed`
except that the backing list may still be shorter than `max_size`; while it
is, the next append lands exactly at index `tail` (field `tail_len`), which
is what makes the append and the in-place write agree. -/
structure BufferDynamic.WF (b : BufferDynamic α) (q : List α) : Prop where
  pos : 0 < b.max_size
  blen : b.buffer.length ≤ b.max_size
  tail_len : b.buffer.length < b.max_size → b.tail = b.buffer.length
  size_eq : b.size = (q.length : Int)
  size_le : q.length ≤ b.max_size
  head_lt : b.head < b.max_size
  tail_eq : b.tail = (b.head + q.length) % b.max_size
  content : ∀ i, (hi : i < q.length) →
    b.buffer[(b.head + i) % b.max_size]? = some (some q[i])

/-- C1: evaluation of the code at the claimed input.  With capacity 3,
enqueueing 10, 20, 30, 40 never raises, but the dequeue sequence is
40, 20, 30, None — not 20, 30, 40 as the claim states: on the fourth
enqueue the write cursor is at slot 0, the `in_index != 0` guard in
`Iterator.get_in` skips the read-cursor advance, so the oldest surviving
item is not the first returned and FIFO order is broken, contradicting the
class docstring's promise of overflow without breaking FIFO order. -/
theorem c1_overwrite_dequeue_sequence :
    (((BufferFixedOverwrite.init 3 :
        BufferFixedOverwrite Nat).enqueueAll [10, 20, 30, 40]).dequeueN 4).1
      = [some 40, some 20, some 30, none] ∧
    (((BufferFixedOverwrite.init 3 :
        BufferFixedOverwrite Nat).enqueueAll [10, 20, 30, 40]).dequeueN 3).1
      ≠ [some 20, some 30, some 40] := by
  decide

/-- C2 counterexample: for `BufferFixedOverwrite` with capacity 3, after
four enqueues the `size` field is 4, strictly above the capacity, so the
claimed invariant `0 ≤ size ≤ capacity` fails for this variant. -/
theorem c2_size_exceeds_capacity :
    ((BufferFixedOverwrite.init 3 : BufferFixedOverwrite Nat).run
        [.enq 10, .enq 20, .enq 30, .enq 40]).size = 4 ∧
    ((BufferFixedOverwrite.init 3 : BufferFixedOverwrite Nat).run
        [.enq 10, .enq 20, .enq 30, .enq 40]).max_size = 3 ∧
    ¬ ((BufferFixedOverwrite.init 3 : BufferFixedOverwrite Nat).run
        [.enq 10, .enq 20, .enq 30, .enq 40]).size
      ≤ (((BufferFixedOverwrite.init 3 : BufferFixedOverwrite Nat).run
        [.enq 10, .enq 20, .enq 30, .enq 40]).max_size : Int) := by
  decide

/-- C3: evaluation of the code at the failing input.  For
`BufferFixedOverwrite` with capacity 3, the interleaved sequence
enqueue 1, dequeue, enqueue 2, dequeue has its first dequeue return 1 as
claimed, but the second dequeue returns None instead of the just-enqueued
2: during the second enqueue `Iterator.get_in` sees `in_index == out_index`
on an empty buffer and spuriously advances the read cursor past the slot
about to be written. -/
theorem c3_overwrite_interleaving_fails :
    ((((BufferFixedOverwrite.init 3 :
        BufferFixedOverwrite Nat).enqueue 1).dequeue).1 = some 1) ∧
    (((((BufferFixedOverwrite.init 3 :
        BufferFixedOverwrite Nat).enqueue 1).dequeue).2.enqueue 2).dequeue).1
      = none := by
  decide

/-- C4 counterexample: for `BufferDynamic` with capacity 3 and the
operation sequence enqueue 1, enqueue 2, dequeue, dequeue, enqueue 3, the
`size` field after every prefix is 0, 1, 2, 1, 0, 1 — its historical
maximum is 2, always strictly below the capacity 3 — yet the final backing
list has length 3, exceeding that historical maximum: the third enqueue
appends a fresh slot even though two already-allocated slots are free. -/
theorem c4_storage_exceeds_size_max :
    ((BufferDynamic.init 3 : BufferDynamic Nat).run []).size = 0 ∧
    ((BufferDynamic.init 3 : BufferDynamic Nat).run [.enq 1]).size = 1 ∧
    ((BufferDynamic.init 3 : BufferDynamic Nat).run
        [.enq 1, .enq 2]).size = 2 ∧
    ((BufferDynamic.init 3 : BufferDynamic Nat).run
        [.enq 1, .enq 2, .deq]).size = 1 ∧
    ((BufferDynamic.init 3 : BufferDynamic Nat).run
        [.enq 1, .enq 2, .deq, .deq]).size = 0 ∧
    ((BufferDynamic.init 3 : BufferDynamic Nat).run
        [.enq 1, .enq 2, .deq, .deq, .enq 3]).size = 1 ∧
    ((BufferDynamic.init 3 : BufferDynamic Nat).run
        [.enq 1, .enq 2, .deq, .deq, .enq 3]).buffer.length = 3 ∧
    ¬ ((BufferDynamic.init 3 : BufferDynamic Nat).run
        [.enq 1, .enq 2, .deq, .deq, .enq 3]).buffer.length ≤ 2 := by
  decide

/-- C6: for `BufferDynamic` and `BufferFixed`, an enqueue on a full buffer
fails with the "Buffer is full" error and a dequeue on an empty buffer
fails with the "Buffer is empty" error, and in both cases the whole state
record (backing storage, head, tail, size) after the failed call is exactly
the buffer it was called on. -/
theorem c6_failed_ops_preserve_state (bdf bde : BufferDynamic α)
    (bff bfe : BufferFixed α) (x y : α)
    (h1 : bdf.is_full = true) (h2 : bde.is_empty = true)
    (h3 : bff.is_full = true) (h4 : bfe.is_empty = true) :
    bdf.enqueue x = .error "Buffer is full" ∧ bdf.step (.enq x) = bdf ∧
    bde.dequeue = .error "Buffer is empty" ∧ bde.step .deq = bde ∧
    bff.enqueue y = .error "Buffer is full" ∧ bff.step (.enq y) = bff ∧
    bfe.dequeue = .error "Buffer is empty" ∧ bfe.step .deq = bfe := by
  refine ⟨?_, ?_, ?_, ?_, ?_, ?_, ?_, ?_⟩ <;>
    simp [BufferDynamic.step, BufferDynamic.enqueue, BufferDynamic.dequeue,
      BufferFixed.step, BufferFixed.enqueue, BufferFixed.dequeue,
      h1, h2, h3, h4]

/-- C6 witness: the hypotheses of `c6_failed_ops_preserve_state` hold at
concrete full and empty buffers of capacities 1 and 2. -/
theorem c6_failed_ops_preserve_state_witness :
    ((⟨[some 5], 1, 0, 0, 1⟩ : BufferDynamic Nat).is_full = true) ∧
    ((BufferDynamic.init 2 : BufferDynamic Nat).is_empty = true) ∧
    ((⟨[some 5], 1, 0, 0, 1⟩ : BufferFixed Nat).is_full = true) ∧
    ((BufferFixed.init 2 : BufferFixed Nat).is_empty = true) ∧
    ((⟨[some 5], 1, 0, 0, 1⟩ : BufferDynamic Nat).enqueue 7
        = .error "Buffer is full" ∧
      (⟨[some 5], 1, 0, 0, 1⟩ : BufferDynamic Nat).step (.enq 7)
        = ⟨[some 5], 1, 0, 0, 1⟩ ∧
      (BufferDynamic.init 2 : BufferDynamic Nat).dequeue
        = .error "Buffer is empty" ∧
      (BufferDynamic.init 2 : BufferDynamic Nat).step .deq
        = BufferDynamic.init 2 ∧
      (⟨[some 5], 1, 0, 0, 1⟩ : BufferFixed Nat).enqueue 7
        = .error "Buffer is full" ∧
      (⟨[some 5], 1, 0, 0, 1⟩ : BufferFixed Nat).step (.enq 7)
        = ⟨[some 5], 1, 0, 0, 1⟩ ∧
      (BufferFixed.init 2 : BufferFixed Nat).dequeue
        = .error "Buffer is empty" ∧
      (BufferFixed.init 2 : BufferFixed Nat).step .deq
        = BufferFixed.init 2) :=
  ⟨by decide, by decide, by decide, by decide,
   c6_failed_ops_preserve_state _ _ _ _ 7 7
     (by decide) (by decide) (by decide) (by decide)⟩

/-- C8: for every state of each of the three buffer variants, the
debug/raw-view accessor `get_buffer` returns the state unchanged — same
backing storage, `max_size`, `head`, `tail`, `size` and (for the overwrite
variant) the same cursor record, hence the same read and write indices. -/
theorem c8_get_buffer_does_not_mutate (b1 : BufferDynamic α)
    (b2 : BufferFixed α) (b3 : BufferFixedOverwrite α) :
    (b1.get_buffer).2 = b1 ∧ (b2.get_buffer).2 = b2 ∧
    (b3.get_buffer).2 = b3 :=
  ⟨rfl, rfl, rfl⟩

/-- C9: on a `BufferFixedOverwrite` of capacity 3, after enqueue 1,
dequeue, enqueue 2 the buffer reports non-empty (`is_empty` is false), yet
the next dequeue returns None instead of the stored item 2.  The cause is
visible in the cursor state: just before the second enqueue the write and
read indices are both 1 on an empty buffer (size 0), and `Iterator.get_in`
treats the equality as the overwrite case and spuriously advances the read
index to 2. -/
theorem c9_dequeue_none_while_nonempty :
    (((((BufferFixedOverwrite.init 3 :
        BufferFixedOverwrite Nat).enqueue 1).dequeue).2).iter.in_index = 1 ∧
      ((((BufferFixedOverwrite.init 3 :
        BufferFixedOverwrite Nat).enqueue 1).dequeue).2).iter.out_index = 1 ∧
      ((((BufferFixedOverwrite.init 3 :
        BufferFixedOverwrite Nat).enqueue 1).dequeue).2).size = 0) ∧
    ((((BufferFixedOverwrite.init 3 :
        BufferFixedOverwrite Nat).enqueue 1).dequeue).2.enqueue 2).iter.out_index
      = 2 ∧
    ((((BufferFixedOverwrite.init 3 :
        BufferFixedOverwrite Nat).enqueue 1).dequeue).2.enqueue 2).is_empty
      = false ∧
    (((((BufferFixedOverwrite.init 3 :
        BufferFixedOverwrite Nat).enqueue 1).dequeue).2.enqueue 2).dequeue).1
      = none := by
  decide

/-- C10: on a `BufferFixedOverwrite` of capacity 3, after enqueue 1,
dequeue, enqueue 2, dequeue the buffer reports empty, yet the backing
storage still holds the item 2, which was enqueued and never returned by
any dequeue (the first dequeue returned 1, the second returned None) — the
item is silently lost to the caller. -/
theorem c10_item_silently_lost :
    ((((((BufferFixedOverwrite.init 3 :
        BufferFixedOverwrite Nat).enqueue 1).dequeue).2.enqueue 2).dequeue).2).is_empty
      = true ∧
    ((((((BufferFixedOverwrite.init 3 :
        BufferFixedOverwrite Nat).enqueue 1).dequeue).2.enqueue 2).dequeue).2).buffer
      = [none, some 2, none] ∧
    some 2 ∈ ((((((BufferFixedOverwrite.init 3 :
        BufferFixedOverwrite Nat).enqueue 1).dequeue).2.enqueue 2).dequeue).2).buffer ∧
    (((BufferFixedOverwrite.init 3 :
        BufferFixedOverwrite Nat).enqueue 1).dequeue).1 = some 1 ∧
    (((((BufferFixedOverwrite.init 3 :
        BufferFixedOverwrite Nat).enqueue 1).dequeue).2.enqueue 2).dequeue).1
      = none := by
  decide

/-- One step of `BufferDynamic` keeps `size` within `[0, max_size]` and
never changes `max_size`. -/
theorem BufferDynamic.step_size_dyn (b : BufferDynamic α) (op : Op α)
    (h0 : 0 ≤ b.size) (h1 : b.size ≤ (b.max_size : Int)) :
    0 ≤ (b.step op).size ∧ (b.step op).size ≤ (b.max_size : Int) ∧
    (b.step op).max_size = b.max_size := by
  cases op with
  | enq x =>
    cases hf : b.is_full with
    | true =>
      have hb : b.step (.enq x) = b := by simp [step, enqueue, hf]
      rw [hb]
      exact ⟨h0, h1, rfl⟩
    | false =>
      have hne : b.size ≠ (b.max_size : Int) := by
        simpa [is_full] using hf
      simp [step, enqueue, hf]
      omega
  | deq =>
    cases he : b.is_empty with
    | true =>
      have hb : b.step .deq = b := by simp [step, dequeue, he]
      rw [hb]
      exact ⟨h0, h1, rfl⟩
    | false =>
      have hne : b.size ≠ 0 := by
        simpa [is_empty] using he
      simp [step, dequeue, he]
      omega

/-- Running any operation list on a `BufferDynamic` keeps `size` within
`[0, max_size]` and never changes `max_size`. -/
theorem BufferDynamic.run_size_dyn (ops : List (Op α)) (b : BufferDynamic α)
    (h0 : 0 ≤ b.size) (h1 : b.size ≤ (b.max_size : Int)) :
    0 ≤ (b.run ops).size ∧ (b.run ops).size ≤ ((b.run ops).max_size : Int) ∧
    (b.run ops).max_size = b.max_size := by
  induction ops generalizing b with
  | nil => exact ⟨h0, h1, rfl⟩
  | cons op ops ih =>
    obtain ⟨a1, a2, a3⟩ := b.step_size_dyn op h0 h1
    obtain ⟨b1, b2, b3⟩ := ih (b.step op) a1 (by rw [a3]; exact a2)
    simp only [run]
    exact ⟨b1, b2, by rw [b3, a3]⟩

/-- One step of `BufferFixed` keeps `size` within `[0, max_size]` and
never changes `max_size`. -/
theorem BufferFixed.step_size (b : BufferFixed α) (op : Op α)
    (h0 : 0 ≤ b.size) (h1 : b.size ≤ (b.max_size : Int)) :
    0 ≤ (b.step op).size ∧ (b.step op).size ≤ (b.max_size : Int) ∧
    (b.step op).max_size = b.max_size := by
  cases op with
  | enq x =>
    cases hf : b.is_full with
    | true =>
      have hb : b.step (.enq x) = b := by simp [step, enqueue, hf]
      rw [hb]
      exact ⟨h0, h1, rfl⟩
    | false =>
      have hne : b.size ≠ (b.max_size : Int) := by
        simpa [is_full] using hf
      simp [step, enqueue, hf]
      omega
  | deq =>
    cases he : b.is_empty with
    | true =>
      have hb : b.step .deq = b := by simp [step, dequeue, he]
      rw [hb]
      exact ⟨h0, h1, rfl⟩
    | false =>
      have hne : b.size ≠ 0 := by
        simpa [is_empty] using he
      simp [step, dequeue, he]
      omega

/-- Running any operation list on a `BufferFixed` keeps `size` within
`[0, max_size]` and never changes `max_size`. -/
theorem BufferFixed.run_size (ops : List (Op α)) (b : BufferFixed α)
    (h0 : 0 ≤ b.size) (h1 : b.size ≤ (b.max_size : Int)) :
    0 ≤ (b.run ops).size ∧ (b.run ops).size ≤ ((b.run ops).max_size : Int) ∧
    (b.run ops).max_size = b.max_size := by
  induction ops generalizing b with
  | nil => exact ⟨h0, h1, rfl⟩
  | cons op ops ih =>
    obtain ⟨a1, a2, a3⟩ := b.step_size op h0 h1
    obtain ⟨b1, b2, b3⟩ := ih (b.step op) a1 (by rw [a3]; exact a2)
    simp only [run]
    exact ⟨b1, b2, by rw [b3, a3]⟩

/-- One step of `BufferFixedOverwrite` keeps `size` non-negative (its
dequeue only decrements behind the `is_empty` guard; its enqueue only
increments). -/
theorem BufferFixedOverwrite.step_size_nonneg (b : BufferFixedOverwrite α)
    (op : Op α) (h0 : 0 ≤ b.size) : 0 ≤ (b.step op).size := by
  cases op with
  | enq x => simp [step, enqueue]; omega
  | deq =>
    cases he : b.is_empty with
    | true => simpa [step, dequeue, he] using h0
    | false =>
      have hne : b.size ≠ 0 := by
        simpa [is_empty] using he
      simp [step, dequeue, he]
      omega

/-- Running any operation list on a `BufferFixedOverwrite` keeps `size`
non-negative. -/
theorem BufferFixedOverwrite.run_size_nonneg (ops : List (Op α))
    (b : BufferFixedOverwrite α) (h0 : 0 ≤ b.size) :
    0 ≤ (b.run ops).size := by
  induction ops generalizing b with
  | nil => exact h0
  | cons op ops ih => exact ih (b.step op) (b.step_size_nonneg op h0)

/-- C2 amended: for `BufferDynamic` and `BufferFixed`, after any operation
sequence on a fresh buffer of capacity `N` the `size` field satisfies
`0 ≤ size ≤ N`; for `BufferFixedOverwrite` only `0 ≤ size` holds (by
`c2_size_exceeds_capacity`, its `size` can exceed the capacity). -/
theorem c2_size_bounds (α : Type) (N : Nat) (ops : List (Op α)) :
    (0 ≤ ((BufferDynamic.init N : BufferDynamic α).run ops).size ∧
      ((BufferDynamic.init N : BufferDynamic α).run ops).size ≤ (N : Int)) ∧
    (0 ≤ ((BufferFixed.init N : BufferFixed α).run ops).size ∧
      ((BufferFixed.init N : BufferFixed α).run ops).size ≤ (N : Int)) ∧
    0 ≤ ((BufferFixedOverwrite.init N :
      BufferFixedOverwrite α).run ops).size := by
  obtain ⟨d1, d2, d3⟩ :=
    BufferDynamic.run_size_dyn ops (BufferDynamic.init N)
      (by simp [BufferDynamic.init]) (by simp [BufferDynamic.init])
  obtain ⟨f1, f2, f3⟩ :=
    BufferFixed.run_size ops (BufferFixed.init N)
      (by simp [BufferFixed.init]) (by simp [BufferFixed.init])
  refine ⟨⟨d1, ?_⟩, ⟨f1, ?_⟩, ?_⟩
  · have : ((BufferDynamic.init N : BufferDynamic α).run ops).max_size = N :=
      d3
    rw [this] at d2
    exact d2
  · have : ((BufferFixed.init N : BufferFixed α).run ops).max_size = N :=
      f3
    rw [this] at f2
    exact f2
  · exact BufferFixedOverwrite.run_size_nonneg ops _ (by
      simp [BufferFixedOverwrite.init])

/-- One step of `BufferDynamic` keeps the backing list's length at most
`max_size`, grows it by at most one and only on an enqueue, and never
changes `max_size`. -/
theorem BufferDynamic.step_length (b : BufferDynamic α) (op : Op α)
    (h : b.buffer.length ≤ b.max_size) :
    (b.step op).buffer.length ≤ b.max_size ∧
    (b.step op).buffer.length ≤
      b.buffer.length + (if op.isEnq then 1 else 0) ∧
    (b.step op).max_size = b.max_size := by
  cases op with
  | enq x =>
    cases hf : b.is_full with
    | true => simp [step, enqueue, hf]; omega
    | false =>
      by_cases hl : b.buffer.length < b.max_size
      · simp [step, enqueue, hf, hl, Op.isEnq]
        omega
      · simp [step, enqueue, hf, hl, Op.isEnq]
        omega
  | deq =>
    cases he : b.is_empty with
    | true => simp [step, dequeue, he, Op.isEnq]; omega
    | false => simp [step, dequeue, he, Op.isEnq]; omega

/-- Running any operation list on a `BufferDynamic` keeps the backing
list's length at most `max_size` and at most its starting length plus the
number of enqueue operations in the list. -/
theorem BufferDynamic.run_length (ops : List (Op α)) (b : BufferDynamic α)
    (h : b.buffer.length ≤ b.max_size) :
    (b.run ops).buffer.length ≤ b.max_size ∧
    (b.run ops).buffer.length ≤
      b.buffer.length + ops.countP Op.isEnq ∧
    (b.run ops).max_size = b.max_size := by
  induction ops generalizing b with
  | nil => exact ⟨h, by simp [run], rfl⟩
  | cons op ops ih =>
    obtain ⟨a1, a2, a3⟩ := b.step_length op h
    obtain ⟨b1, b2, b3⟩ := ih (b.step op) (by rw [a3]; exact a1)
    simp only [run]
    refine ⟨by rw [a3] at b1; exact b1, ?_, by rw [b3, a3]⟩
    rw [List.countP_cons]
    cases hop : op.isEnq <;> simp [hop] at a2 ⊢ <;> omega

/-- C4 amended: for a fresh `BufferDynamic` of capacity `N` and any
operation sequence, the backing list's length never exceeds `N`, nor the
number of enqueue operations performed (the storage grows by at most one
slot per enqueue and stops growing at the capacity ceiling). -/
theorem c4_storage_bounds (α : Type) (N : Nat) (ops : List (Op α)) :
    ((BufferDynamic.init N : BufferDynamic α).run ops).buffer.length ≤ N ∧
    ((BufferDynamic.init N : BufferDynamic α).run ops).buffer.length ≤
      ops.countP Op.isEnq := by
  obtain ⟨a1, a2, _⟩ :=
    BufferDynamic.run_length ops (BufferDynamic.init N)
      (by simp [BufferDynamic.init])
  exact ⟨a1, by simpa [BufferDynamic.init] using a2⟩

/-- `Iterator.get_out` leaves `max_index` and `in_index` alone, returns
the pre-call `out_index`, and keeps `out_index` within `[0, max_index]`. -/
theorem Iterator.get_out_wf (it : Iterator)
    (h : it.out_index ≤ it.max_index) :
    (it.get_out).2.max_index = it.max_index ∧
    (it.get_out).2.in_index = it.in_index ∧
    (it.get_out).2.out_index ≤ it.max_index ∧
    (it.get_out).1 = it.out_index := by
  refine ⟨rfl, rfl, ?_, rfl⟩
  simp only [get_out]
  split
  · exact Nat.zero_le _
  · next hne =>
    simp at hne
    omega

/-- `Iterator.get_in` leaves `max_index` alone, returns the pre-call
`in_index`, and keeps both indices within `[0, max_index]`. -/
theorem Iterator.get_in_wf (it : Iterator)
    (hin : it.in_index ≤ it.max_index)
    (hout : it.out_index ≤ it.max_index) :
    (it.get_in).2.max_index = it.max_index ∧
    (it.get_in).2.in_index ≤ it.max_index ∧
    (it.get_in).2.out_index ≤ it.max_index ∧
    (it.get_in).1 = it.in_index := by
  refine ⟨?_, ?_, ?_, ?_⟩ <;>
    simp only [get_in, get_out] <;>
    split_ifs <;>
    simp_all <;>
    omega

/-- One step of `BufferFixedOverwrite` preserves well-formedness and never
changes `max_size`. -/
theorem BufferFixedOverwrite.step_wfo (b : BufferFixedOverwrite α)
    (op : Op α) (h : b.WFO) : (b.step op).WFO ∧
    (b.step op).max_size = b.max_size := by
  obtain ⟨hlen, hmax, hin, hout⟩ := h
  cases op with
  | enq x =>
    obtain ⟨i1, i2, i3, _⟩ := b.iter.get_in_wf hin hout
    exact ⟨⟨by simpa [step, enqueue] using hlen,
            by simpa [step, enqueue, i1] using hmax,
            by simpa [step, enqueue, i1] using i2,
            by simpa [step, enqueue, i1] using i3⟩, rfl⟩
  | deq =>
    cases he : b.is_empty with
    | true => exact ⟨⟨by simpa [step, dequeue, he] using hlen,
                     by simpa [step, dequeue, he] using hmax,
                     by simpa [step, dequeue, he] using hin,
                     by simpa [step, dequeue, he] using hout⟩,
                   by simp [step, dequeue, he]⟩
    | false =>
      obtain ⟨o1, o2, o3, _⟩ := b.iter.get_out_wf hout
      exact ⟨⟨by simpa [step, dequeue, he] using hlen,
              by simpa [step, dequeue, he, o1] using hmax,
              by simpa [step, dequeue, he, o1, o2] using hin,
              by simpa [step, dequeue, he, o1] using o3⟩,
            by simp [step, dequeue, he]⟩

/-- Running any operation list on a well-formed `BufferFixedOverwrite`
preserves well-formedness and never changes `max_size`. -/
theorem BufferFixedOverwrite.run_wfo (ops : List (Op α))
    (b : BufferFixedOverwrite α) (h : b.WFO) : (b.run ops).WFO ∧
    (b.run ops).max_size = b.max_size := by
  induction ops generalizing b with
  | nil => exact ⟨h, rfl⟩
  | cons op ops ih =>
    obtain ⟨a1, a2⟩ := b.step_wfo op h
    obtain ⟨b1, b2⟩ := ih (b.step op) a1
    simp only [run]
    exact ⟨b1, by rw [b2, a2]⟩

/-- A fresh `BufferFixedOverwrite` of positive capacity is well-formed. -/
theorem BufferFixedOverwrite.init_wfo (N : Nat) (hN : 0 < N) :
    (BufferFixedOverwrite.init N : BufferFixedOverwrite α).WFO :=
  ⟨by simp [init], by simp [init, Iterator.init]; omega,
   by simp [init, Iterator.init], by simp [init, Iterator.init]⟩

/-- C7: for `BufferFixedOverwrite` of positive capacity, every state
reached by any operation sequence is well-formed and its next write index
(the value `Iterator.get_in` hands to `enqueue`) is strictly within the
backing list, so the Python slot assignment in `enqueue` is in bounds and
`enqueue` never raises; and a dequeue on any buffer reporting empty
returns the None sentinel as a normal value with the state record exactly
unchanged. -/
theorem c7_enqueue_total_dequeue_none (α : Type) (N : Nat) (hN : 0 < N)
    (ops : List (Op α)) (be : BufferFixedOverwrite α)
    (he : be.is_empty = true) :
    ((BufferFixedOverwrite.init N : BufferFixedOverwrite α).run ops).WFO ∧
    ((((BufferFixedOverwrite.init N :
        BufferFixedOverwrite α).run ops).iter.get_in).1 <
      ((BufferFixedOverwrite.init N :
        BufferFixedOverwrite α).run ops).buffer.length) ∧
    be.dequeue = (none, be) := by
  obtain ⟨w, _⟩ :=
    BufferFixedOverwrite.run_wfo ops (BufferFixedOverwrite.init N)
      (BufferFixedOverwrite.init_wfo N hN)
  refine ⟨w, ?_, ?_⟩
  · obtain ⟨hlen, hmax, hin, hout⟩ := w
    obtain ⟨_, _, _, i4⟩ :=
      Iterator.get_in_wf _ hin hout
    rw [i4, hlen]
    omega
  · simp [BufferFixedOverwrite.dequeue, he]

/-- C7 witness: the hypotheses of `c7_enqueue_total_dequeue_none` hold at
capacity 3, the empty operation list, and a fresh capacity-3 buffer. -/
theorem c7_enqueue_total_dequeue_none_witness :
    0 < 3 ∧
    ((BufferFixedOverwrite.init 3 : BufferFixedOverwrite Nat).is_empty
      = true) ∧
    (((BufferFixedOverwrite.init 3 :
        BufferFixedOverwrite Nat).run []).WFO ∧
      ((((BufferFixedOverwrite.init 3 :
          BufferFixedOverwrite Nat).run []).iter.get_in).1 <
        ((BufferFixedOverwrite.init 3 :
          BufferFixedOverwrite Nat).run []).buffer.length) ∧
      (BufferFixedOverwrite.init 3 :
        BufferFixedOverwrite Nat).dequeue
        = (none, BufferFixedOverwrite.init 3)) :=
  ⟨by decide, by decide,
   c7_enqueue_total_dequeue_none Nat 3 (by decide) []
     (BufferFixedOverwrite.init 3) (by decide)⟩

/-- Adding the same offset to two indices below the modulus and reducing
modulo it is injective. -/
theorem mod_shift_inj (m h i j : Nat) (hi : i < m) (hj : j < m)
    (e : (h + i) % m = (h + j) % m) : i = j := by
  have hm : Nat.ModEq m i j := Nat.ModEq.add_left_cancel' h e
  have : i % m = j % m := hm
  rwa [Nat.mod_eq_of_lt hi, Nat.mod_eq_of_lt hj] at this

/-- A non-full well-formed `BufferFixed` enqueues successfully, and the new
state represents the queue with the item appended. -/
theorem BufferFixed.enqueue_wf {b : BufferFixed α} {q : List α}
    (w : b.WF q) (hlt : q.length < b.max_size) (x : α) :
    ∃ b2, b.enqueue x = .ok b2 ∧ b2.WF (q ++ [x]) ∧
      b2.max_size = b.max_size := by
  have hnf : b.is_full = false := by
    simp [is_full, w.size_eq]
    omega
  refine ⟨{ b with buffer := b.buffer.set b.tail (some x),
                   tail := (b.tail + 1) % b.max_size, size := b.size + 1 },
          by simp [enqueue, hnf], ?_, rfl⟩
  refine ⟨w.pos, ?_, ?_, ?_, w.head_lt, ?_, ?_⟩
  · show (b.buffer.set b.tail (some x)).length = b.max_size
    simp [w.len_eq]
  · show b.size + 1 = ((q ++ [x]).length : Int)
    rw [w.size_eq]
    simp
  · show (q ++ [x]).length ≤ b.max_size
    simp
    omega
  · show (b.tail + 1) % b.max_size = (b.head + (q ++ [x]).length) % b.max_size
    rw [w.tail_eq, Nat.mod_add_mod]
    congr 1
    simp
    omega
  · intro i hi
    simp only [List.length_append, List.length_cons, List.length_nil] at hi
    by_cases hiq : i < q.length
    · have hne : b.tail ≠ (b.head + i) % b.max_size := by
        rw [w.tail_eq]
        intro hcon
        have := mod_shift_inj b.max_size b.head q.length i
          (by omega) (by omega) hcon
        omega
      show (b.buffer.set b.tail (some x))[(b.head + i) % b.max_size]?
        = some (some (q ++ [x])[i])
      rw [List.getElem?_set_ne hne, List.getElem_append_left hiq]
      exact w.content i hiq
    · have hie : i = q.length := by omega
      subst hie
      show (b.buffer.set b.tail (some x))[(b.head + q.length) % b.max_size]?
        = some (some (q ++ [x])[q.length])
      rw [← w.tail_eq, List.getElem?_set_eq_of_lt _
        (by rw [w.len_eq, w.tail_eq]; exact Nat.mod_lt _ w.pos)]
      rw [List.getElem_concat_length _ _ _ rfl]

/-- A well-formed `BufferFixed` representing a non-empty queue dequeues its
front item, and the new state represents the tail of the queue. -/
theorem BufferFixed.dequeue_wf {b : BufferFixed α} {x : α} {q : List α}
    (w : b.WF (x :: q)) :
    ∃ b2, b.dequeue = .ok (some x, b2) ∧ b2.WF q ∧
      b2.max_size = b.max_size := by
  have hne : b.is_empty = false := by
    simp [is_empty, w.size_eq]
    omega
  have hhead : b.buffer[b.head]? = some (some x) := by
    have h0 := w.content 0 (by simp)
    simpa [Nat.mod_eq_of_lt w.head_lt] using h0
  have hget : b.buffer.getD b.head none = some x := by
    rw [List.getD_eq_getElem?_getD, hhead]
    rfl
  refine ⟨{ b with buffer := b.buffer.set b.head none,
                   head := (b.head + 1) % b.max_size, size := b.size - 1 },
          by simp [dequeue, hne, hget, hhead], ?_, rfl⟩
  have hql : (x :: q).length = q.length + 1 := by simp
  refine ⟨w.pos, ?_, ?_, ?_, Nat.mod_lt _ w.pos, ?_, ?_⟩
  · show (b.buffer.set b.head none).length = b.max_size
    simp [w.len_eq]
  · show b.size - 1 = (q.length : Int)
    have := w.size_eq
    rw [hql] at this
    simp at this
    omega
  · show q.length ≤ b.max_size
    have := w.size_le
    rw [hql] at this
    omega
  · show b.tail = ((b.head + 1) % b.max_size + q.length) % b.max_size
    rw [Nat.mod_add_mod, w.tail_eq]
    congr 1
    simp
    omega
  · intro i hi
    have hlt1 : i + 1 < b.max_size := by
      have := w.size_le
      rw [hql] at this
      omega
    have hidx : ((b.head + 1) % b.max_size + i) % b.max_size
        = (b.head + (i + 1)) % b.max_size := by
      rw [Nat.mod_add_mod]
      congr 1
      omega
    have hne2 : b.head ≠ ((b.head + 1) % b.max_size + i) % b.max_size := by
      rw [hidx]
      intro hcon
      have hh : (b.head + 0) % b.max_size = (b.head + (i + 1)) % b.max_size := by
        rw [Nat.add_zero, Nat.mod_eq_of_lt w.head_lt]
        exact hcon
      have := mod_shift_inj b.max_size b.head 0 (i + 1)
        w.pos hlt1 hh
      omega
    show (b.buffer.set b.head none)[((b.head + 1) % b.max_size + i) % b.max_size]?
      = some (some q[i])
    rw [List.getElem?_set_ne hne2, hidx]
    have := w.content (i + 1) (by simp; omega)
    simpa using this

/-- A well-formed `BufferFixed` representing a queue of length `max_size`
is full and rejects every enqueue with the "Buffer is full" error. -/
theorem BufferFixed.enqueue_full {b : BufferFixed α} {q : List α}
    (w : b.WF q) (hfull : q.length = b.max_size) (x : α) :
    b.enqueue x = .error "Buffer is full" := by
  have : b.is_full = true := by
    simp [is_full, w.size_eq, hfull]
  simp [enqueue, this]

/-- Enqueueing a list of items into a well-formed `BufferFixed` with
enough free room succeeds and appends the items to the queue. -/
theorem BufferFixed.enqueueAll_wf :
    ∀ (xs : List α) (b : BufferFixed α) (q : List α), b.WF q →
      q.length + xs.length ≤ b.max_size →
      ∃ b2, b.enqueueAll xs = .ok b2 ∧ b2.WF (q ++ xs) ∧
        b2.max_size = b.max_size := by
  intro xs
  induction xs with
  | nil =>
    intro b q w _
    exact ⟨b, rfl, by simpa using w, rfl⟩
  | cons x xs ih =>
    intro b q w hle
    simp only [List.length_cons] at hle
    obtain ⟨b1, he, w1, hm⟩ := BufferFixed.enqueue_wf w (by omega) x
    obtain ⟨b2, hall, w2, hm2⟩ := ih b1 (q ++ [x]) w1
      (by rw [hm]; simp; omega)
    refine ⟨b2, ?_, by simpa using w2, by rw [hm2, hm]⟩
    simp [enqueueAll, he, hall]

/-- Dequeueing a well-formed `BufferFixed` down to empty returns exactly
the represented queue, in order. -/
theorem BufferFixed.dequeueN_wf :
    ∀ (q : List α) (b : BufferFixed α), b.WF q →
      ∃ b2, b.dequeueN q.length = .ok (q.map some, b2) ∧ b2.WF [] := by
  intro q
  induction q with
  | nil => intro b w; exact ⟨b, rfl, w⟩
  | cons x q ih =>
    intro b w
    obtain ⟨b1, hd, w1, _⟩ := BufferFixed.dequeue_wf w
    obtain ⟨b2, hN, w2⟩ := ih b1 w1
    refine ⟨b2, ?_, w2⟩
    simp only [List.length_cons, List.map_cons]
    simp [dequeueN, hd, hN]

/-- A fresh `BufferFixed` of positive capacity represents the empty
queue. -/
theorem BufferFixed.init_wf (N : Nat) (hN : 0 < N) :
    (BufferFixed.init N : BufferFixed α).WF [] := by
  refine ⟨hN, by simp [init], by simp [init], by simp [init], hN,
          by simp [init], ?_⟩
  intro i hi
  simp at hi

/-- A non-full well-formed `BufferDynamic` enqueues successfully (appending
a slot while storage is short, writing in place once it is at capacity),
and the new state represents the queue with the item appended. -/
theorem BufferDynamic.enqueue_wf_dyn {b : BufferDynamic α} {q : List α}
    (w : b.WF q) (hlt : q.length < b.max_size) (x : α) :
    ∃ b2, b.enqueue x = .ok b2 ∧ b2.WF (q ++ [x]) ∧
      b2.max_size = b.max_size := by
  have hnf : b.is_full = false := by
    simp [is_full, w.size_eq]
    omega
  by_cases hl : b.buffer.length < b.max_size
  · refine ⟨{ b with buffer := b.buffer ++ [some x],
                     tail := (b.tail + 1) % b.max_size, size := b.size + 1 },
            by simp [enqueue, hnf, hl], ?_, rfl⟩
    have htl : b.tail = b.buffer.length := w.tail_len hl
    refine ⟨w.pos, ?_, ?_, ?_, ?_, w.head_lt, ?_, ?_⟩
    · show (b.buffer ++ [some x]).length ≤ b.max_size
      simp
      omega
    · intro h2
      show (b.tail + 1) % b.max_size = (b.buffer ++ [some x]).length
      rw [htl]
      simp only [List.length_append, List.length_cons, List.length_nil] at h2 ⊢
      exact Nat.mod_eq_of_lt (by omega)
    · show b.size + 1 = ((q ++ [x]).length : Int)
      rw [w.size_eq]
      simp
    · show (q ++ [x]).length ≤ b.max_size
      simp
      omega
    · show (b.tail + 1) % b.max_size = (b.head + (q ++ [x]).length) % b.max_size
      rw [w.tail_eq, Nat.mod_add_mod]
      congr 1
      simp
      omega
    · intro i hi
      simp only [List.length_append, List.length_cons, List.length_nil] at hi
      by_cases hiq : i < q.length
      · have hc := w.content i hiq
        obtain ⟨hp, _⟩ := List.getElem?_eq_some_iff.mp hc
        show (b.buffer ++ [some x])[(b.head + i) % b.max_size]?
          = some (some (q ++ [x])[i])
        rw [List.getElem?_append_left hp, List.getElem_append_left hiq]
        exact hc
      · have hie : i = q.length := by omega
        subst hie
        show (b.buffer ++ [some x])[(b.head + q.length) % b.max_size]?
          = some (some (q ++ [x])[q.length])
        rw [← w.tail_eq, htl, List.getElem?_concat_length]
        rw [List.getElem_concat_length _ _ _ rfl]
  · have hlen : b.buffer.length = b.max_size := by
      have := w.blen
      omega
    refine ⟨{ b with buffer := b.buffer.set b.tail (some x),
                     tail := (b.tail + 1) % b.max_size, size := b.size + 1 },
            by simp [enqueue, hnf, hl], ?_, rfl⟩
    refine ⟨w.pos, ?_, ?_, ?_, ?_, w.head_lt, ?_, ?_⟩
    · show (b.buffer.set b.tail (some x)).length ≤ b.max_size
      simp [hlen]
    · intro h2
      have h3 : (b.buffer.set b.tail (some x)).length < b.max_size := h2
      rw [List.length_set, hlen] at h3
      omega
    · show b.size + 1 = ((q ++ [x]).length : Int)
      rw [w.size_eq]
      simp
    · show (q ++ [x]).length ≤ b.max_size
      simp
      omega
    · show (b.tail + 1) % b.max_size = (b.head + (q ++ [x]).length) % b.max_size
      rw [w.tail_eq, Nat.mod_add_mod]
      congr 1
      simp
      omega
    · intro i hi
      simp only [List.length_append, List.length_cons, List.length_nil] at hi
      by_cases hiq : i < q.length
      · have hne : b.tail ≠ (b.head + i) % b.max_size := by
          rw [w.tail_eq]
          intro hcon
          have := mod_shift_inj b.max_size b.head q.length i
            (by omega) (by omega) hcon
          omega
        show (b.buffer.set b.tail (some x))[(b.head + i) % b.max_size]?
          = some (some (q ++ [x])[i])
        rw [List.getElem?_set_ne hne, List.getElem_append_left hiq]
        exact w.content i hiq
      · have hie : i = q.length := by omega
        subst hie
        show (b.buffer.set b.tail (some x))[(b.head + q.length) % b.max_size]?
          = some (some (q ++ [x])[q.length])
        rw [← w.tail_eq, List.getElem?_set_eq_of_lt _
          (by rw [hlen, w.tail_eq]; exact Nat.mod_lt _ w.pos)]
        rw [List.getElem_concat_length _ _ _ rfl]

/-- A well-formed `BufferDynamic` representing a non-empty queue dequeues
its front item, and the new state represents the tail of the queue. -/
theorem BufferDynamic.dequeue_wf_dyn {b : BufferDynamic α} {x : α} {q : List α}
    (w : b.WF (x :: q)) :
    ∃ b2, b.dequeue = .ok (some x, b2) ∧ b2.WF q ∧
      b2.max_size = b.max_size := by
  have hne : b.is_empty = false := by
    simp [is_empty, w.size_eq]
    omega
  have hhead : b.buffer[b.head]? = some (some x) := by
    have h0 := w.content 0 (by simp)
    simpa [Nat.mod_eq_of_lt w.head_lt] using h0
  have hget : b.buffer.getD b.head none = some x := by
    rw [List.getD_eq_getElem?_getD, hhead]
    rfl
  refine ⟨{ b with buffer := b.buffer.set b.head none,
                   head := (b.head + 1) % b.max_size, size := b.size - 1 },
          by simp [dequeue, hne, hget, hhead], ?_, rfl⟩
  have hql : (x :: q).length = q.length + 1 := by simp
  refine ⟨w.pos, ?_, ?_, ?_, ?_, Nat.mod_lt _ w.pos, ?_, ?_⟩
  · show (b.buffer.set b.head none).length ≤ b.max_size
    rw [List.length_set]
    exact w.blen
  · intro h2
    show b.tail = (b.buffer.set b.head none).length
    rw [List.length_set] at h2 ⊢
    exact w.tail_len h2
  · show b.size - 1 = (q.length : Int)
    have := w.size_eq
    rw [hql] at this
    simp at this
    omega
  · show q.length ≤ b.max_size
    have := w.size_le
    rw [hql] at this
    omega
  · show b.tail = ((b.head + 1) % b.max_size + q.length) % b.max_size
    rw [Nat.mod_add_mod, w.tail_eq]
    congr 1
    simp
    omega
  · intro i hi
    have hlt1 : i + 1 < b.max_size := by
      have := w.size_le
      rw [hql] at this
      omega
    have hidx : ((b.head + 1) % b.max_size + i) % b.max_size
        = (b.head + (i + 1)) % b.max_size := by
      rw [Nat.mod_add_mod]
      congr 1
      omega
    have hne2 : b.head ≠ ((b.head + 1) % b.max_size + i) % b.max_size := by
      rw [hidx]
      intro hcon
      have hh : (b.head + 0) % b.max_size = (b.head + (i + 1)) % b.max_size := by
        rw [Nat.add_zero, Nat.mod_eq_of_lt w.head_lt]
        exact hcon
      have := mod_shift_inj b.max_size b.head 0 (i + 1)
        w.pos hlt1 hh
      omega
    show (b.buffer.set b.head none)[((b.head + 1) % b.max_size + i) % b.max_size]?
      = some (some q[i])
    rw [List.getElem?_set_ne hne2, hidx]
    have := w.content (i + 1) (by simp; omega)
    simpa using this

/-- A well-formed `BufferDynamic` representing a queue of length
`max_size` is full and rejects every enqueue with the "Buffer is full"
error. -/
theorem BufferDynamic.enqueue_full_dyn {b : BufferDynamic α} {q : List α}
    (w : b.WF q) (hfull : q.length = b.max_size) (x : α) :
    b.enqueue x = .error "Buffer is full" := by
  have : b.is_full = true := by
    simp [is_full, w.size_eq, hfull]
  simp [enqueue, this]

/-- Enqueueing a list of items into a well-formed `BufferDynamic` with
enough free room succeeds and appends the items to the queue. -/
theorem BufferDynamic.enqueueAll_wf_dyn :
    ∀ (xs : List α) (b : BufferDynamic α) (q : List α), b.WF q →
      q.length + xs.length ≤ b.max_size →
      ∃ b2, b.enqueueAll xs = .ok b2 ∧ b2.WF (q ++ xs) ∧
        b2.max_size = b.max_size := by
  intro xs
  induction xs with
  | nil =>
    intro b q w _
    exact ⟨b, rfl, by simpa using w, rfl⟩
  | cons x xs ih =>
    intro b q w hle
    simp only [List.length_cons] at hle
    obtain ⟨b1, he, w1, hm⟩ := BufferDynamic.enqueue_wf_dyn w (by omega) x
    obtain ⟨b2, hall, w2, hm2⟩ := ih b1 (q ++ [x]) w1
      (by rw [hm]; simp; omega)
    refine ⟨b2, ?_, by simpa using w2, by rw [hm2, hm]⟩
    simp [enqueueAll, he, hall]

/-- Dequeueing a well-formed `BufferDynamic` down to empty returns exactly
the represented queue, in order. -/
theorem BufferDynamic.dequeueN_wf_dyn :
    ∀ (q : List α) (b : BufferDynamic α), b.WF q →
      ∃ b2, b.dequeueN q.length = .ok (q.map some, b2) ∧ b2.WF [] := by
  intro q
  induction q with
  | nil => intro b w; exact ⟨b, rfl, w⟩
  | cons x q ih =>
    intro b w
    obtain ⟨b1, hd, w1, _⟩ := BufferDynamic.dequeue_wf_dyn w
    obtain ⟨b2, hN, w2⟩ := ih b1 w1
    refine ⟨b2, ?_, w2⟩
    simp only [List.length_cons, List.map_cons]
    simp [dequeueN, hd, hN]

/-- A fresh `BufferDynamic` of positive capacity represents the empty
queue. -/
theorem BufferDynamic.init_wf_dyn (N : Nat) (hN : 0 < N) :
    (BufferDynamic.init N : BufferDynamic α).WF [] := by
  refine ⟨hN, by simp [init], ?_, by simp [init], by simp [init], hN,
          by simp [init], ?_⟩
  · intro _
    rfl
  · intro i hi
    simp at hi

/-- C5: for `BufferFixed` and `BufferDynamic` with capacity equal to the
length of an arbitrary item list `xs`, enqueueing the `xs` one by one into
a fresh buffer all succeeds and a subsequent `xs.length`-fold dequeue
returns exactly `xs` in its original order; one further enqueue without an
intervening dequeue fails with the "Buffer is full" error; and a dequeue
on a freshly constructed buffer fails with the "Buffer is empty" error. -/
theorem c5_fifo_round_trip (α : Type) (xs : List α) (y : α) :
    (∃ b1, (BufferFixed.init xs.length :
        BufferFixed α).enqueueAll xs = .ok b1 ∧
      b1.enqueue y = .error "Buffer is full" ∧
      ∃ b2, b1.dequeueN xs.length = .ok (xs.map some, b2)) ∧
    (BufferFixed.init xs.length : BufferFixed α).dequeue
      = .error "Buffer is empty" ∧
    (∃ b1, (BufferDynamic.init xs.length :
        BufferDynamic α).enqueueAll xs = .ok b1 ∧
      b1.enqueue y = .error "Buffer is full" ∧
      ∃ b2, b1.dequeueN xs.length = .ok (xs.map some, b2)) ∧
    (BufferDynamic.init xs.length : BufferDynamic α).dequeue
      = .error "Buffer is empty" := by
  have hdeqF : (BufferFixed.init xs.length : BufferFixed α).dequeue
      = .error "Buffer is empty" := by
    simp [BufferFixed.dequeue, BufferFixed.is_empty, BufferFixed.init]
  have hdeqD : (BufferDynamic.init xs.length : BufferDynamic α).dequeue
      = .error "Buffer is empty" := by
    simp [BufferDynamic.dequeue, BufferDynamic.is_empty, BufferDynamic.init]
  rcases xs with _ | ⟨x, xs2⟩
  · refine ⟨⟨BufferFixed.init 0, rfl, ?_, BufferFixed.init 0, rfl⟩, hdeqF,
            ⟨BufferDynamic.init 0, rfl, ?_, BufferDynamic.init 0, rfl⟩, hdeqD⟩
    · simp [BufferFixed.enqueue, BufferFixed.is_full, BufferFixed.init]
    · simp [BufferDynamic.enqueue, BufferDynamic.is_full, BufferDynamic.init]
  · have hNpos : 0 < (x :: xs2).length := by simp
    obtain ⟨b1, hall, w1, hm⟩ := BufferFixed.enqueueAll_wf (x :: xs2)
      (BufferFixed.init (x :: xs2).length) [] (BufferFixed.init_wf _ hNpos)
      (by simp [BufferFixed.init])
    have w1b : b1.WF (x :: xs2) := by simpa using w1
    have hfull : b1.enqueue y = .error "Buffer is full" :=
      BufferFixed.enqueue_full w1b (by rw [hm]; simp [BufferFixed.init]) y
    obtain ⟨b2, hdeq, _⟩ := BufferFixed.dequeueN_wf (x :: xs2) b1 w1b
    obtain ⟨d1, dall, v1, dm⟩ := BufferDynamic.enqueueAll_wf_dyn (x :: xs2)
      (BufferDynamic.init (x :: xs2).length) []
      (BufferDynamic.init_wf_dyn _ hNpos) (by simp [BufferDynamic.init])
    have v1b : d1.WF (x :: xs2) := by simpa using v1
    have dfull : d1.enqueue y = .error "Buffer is full" :=
      BufferDynamic.enqueue_full_dyn v1b (by rw [dm]; simp [BufferDynamic.init]) y
    obtain ⟨d2, ddeq, _⟩ := BufferDynamic.dequeueN_wf_dyn (x :: xs2) d1 v1b
    exact ⟨⟨b1, hall, hfull, b2, hdeq⟩, hdeqF,
           ⟨d1, dall, dfull, d2, ddeq⟩, hdeqD⟩

end Main
